import Mathlib

set_option maxRecDepth 8192

/-!
Verification development for the OctQuant color-quantization repository.

The repository contains two engine variants:
* `src/unnamed/part_000` — an `Octree` with a per-level `reducible` array of
  single node pointers, `InsertColor`, `Reduce`, `BuildPalette`,
  `GetPaletteIndex` (no fallback descent);
* `src/main.go` / `src/unnamed/part_001` — an `OctreeQuantizer` with
  per-level node lists (`Levels`), `AddColor`, `MakePalette`,
  `GetPaletteIndex` (with fallback descent).  `part_001` generalizes
  `main.go` by a `QuantizerConfig` carrying `MaxDepth` and `MaxColors`;
  `main.go` is the special case `MaxDepth = 8`.

Go pointer structures are embedded as arenas: a node is identified by its
index in a list of node records; a child pointer is an `Option Nat`.  Nodes
are only ever appended, so identifiers are stable.  Fallible spots of the Go
code (runtime panics from negative shift counts) are embedded with `Except`.
-/

/-- List lookup with an explicit default (the embedding of reading a slot of
a Go array / arena; out-of-range reads never happen in reachable states). -/
def getN (d : α) : List α → Nat → α
  | [], _ => d
  | a :: _, 0 => a
  | _ :: l, n + 1 => getN d l n

/-- List update at an index; identity when out of range (the embedding of
writing a slot of a Go array / arena). -/
def setN (v : α) : List α → Nat → List α
  | [], _ => []
  | _ :: l, 0 => v :: l
  | a :: l, n + 1 => a :: setN v l n

namespace Octo

/-- Embedding of `OctreeNode` from `src/unnamed/part_000`: children are
arena identifiers (`[8]*OctreeNode` becomes a length-8 list of options). -/
structure ONode where
  isLeaf : Bool
  colorCount : Nat
  redTotal : Nat
  greenTotal : Nat
  blueTotal : Nat
  children : List (Option Nat)
  paletteIndex : Nat
deriving DecidableEq, Repr

/-- The zero value `&OctreeNode{}` of `part_000`. -/
def newONode : ONode :=
  { isLeaf := false, colorCount := 0, redTotal := 0, greenTotal := 0,
    blueTotal := 0, children := List.replicate 8 none, paletteIndex := 0 }

/-- Embedding of `Octree` from `src/unnamed/part_000`.  `nodes` is the arena
(the root is identifier 0); `reducible` is the `[8]*OctreeNode` array of the
source; `palette` holds `(R, G, B)` bytes (alpha is the constant 255). -/
structure Octree where
  nodes : List ONode
  colorDepth : Nat
  leafCount : Nat
  reducible : List (Option Nat)
  palette : List (Nat × Nat × Nat)
deriving DecidableEq, Repr

/-- `NewOctree(colorDepth)` of `part_000`. -/
def newOctree (colorDepth : Nat) : Octree :=
  { nodes := [newONode], colorDepth := colorDepth, leafCount := 0,
    reducible := List.replicate 8 none, palette := [] }

/-- Read a node of the arena (nil dereference never happens in reachable
states; out-of-range reads return the zero node). -/
def getNode (o : Octree) (id : Nat) : ONode :=
  getN newONode o.nodes id

/-- Point update of one node of the arena. -/
def modifyNode (o : Octree) (id : Nat) (f : ONode → ONode) : Octree :=
  { o with nodes := setN (f (getNode o id)) o.nodes id }

/-- One iteration of the descent loop of `Octree.InsertColor`
(`part_000` lines 84-106).  The branch index is
`((r & bitMask) >> (maxDepth-3-level)) | ((g & bitMask) >> (maxDepth-2-level))
| ((b & bitMask) >> (maxDepth-1-level))` with `bitMask = 1 << (7-level)`;
for `level ≥ 6` the first shift count `8-3-level` is negative, which is a
run-time panic in Go, embedded as `Except.error`. -/
def insertStep (r g b : Nat) (acc : Octree × Nat) (level : Nat) :
    Except Unit (Octree × Nat) :=
  if 5 < level then .error () else
  let o := acc.1
  let cur := acc.2
  let bitMask := 2 ^ (7 - level)
  let idx := ((r &&& bitMask) >>> (5 - level)) |||
             ((g &&& bitMask) >>> (6 - level)) |||
             ((b &&& bitMask) >>> (7 - level))
  match getN none (getNode o cur).children idx with
  | some cid => .ok (o, cid)
  | none =>
      let newId := o.nodes.length
      let o1 := { o with nodes := o.nodes ++ [newONode] }
      let o2 := modifyNode o1 cur
        (fun n => { n with children := setN (some newId) n.children idx })
      let o3 := if level < 7
        then { o2 with reducible := setN (some newId) o2.reducible (level + 1) }
        else o2
      let o4 := if level == 7 then { o3 with leafCount := o3.leafCount + 1 } else o3
      .ok (o4, newId)

/-- The descent loop of `Octree.InsertColor`, over the level sequence. -/
def insertLoop (r g b : Nat) : List Nat → Octree × Nat → Except Unit (Octree × Nat)
  | [], acc => .ok acc
  | level :: rest, acc =>
      match insertStep r g b acc level with
      | .error e => .error e
      | .ok acc' => insertLoop r g b rest acc'

/-- Scan levels 7 down to 0 for the deepest non-nil `reducible` entry
(`part_000` lines 130-135); `levelToReduce` stays 0 when all are nil. -/
def deepestReducible (red : List (Option Nat)) : Nat :=
  ((List.range 8).reverse.find? (fun i => (getN none red i).isSome)).getD 0

/-- The child-absorption loop of `Octree.Reduce` (lines 141-151): totals and
counts of existing children are accumulated, `leafCount` is decremented per
child, and each child slot is detached. -/
def absorbChildren (o : Octree) (id : Nat) :
    List (Option Nat) → Nat → Nat × Nat × Nat × Nat × Octree
  | [], _ => (0, 0, 0, 0, o)
  | none :: rest, i => absorbChildren o id rest (i + 1)
  | some cid :: rest, i =>
      let ch := getNode o cid
      let o1 := { modifyNode o id
          (fun n => { n with children := setN none n.children i }) with
          leafCount := o.leafCount - 1 }
      let (r, g, b, c, o2) := absorbChildren o1 id rest (i + 1)
      (r + ch.redTotal, g + ch.greenTotal, b + ch.blueTotal, c + ch.colorCount, o2)

/-- One iteration of the `for o.leafCount > 256` loop of `Octree.Reduce`;
`none` is the silent `return` taken when the selected entry is nil. -/
def reduceStep (o : Octree) : Option Octree :=
  let lvl := deepestReducible o.reducible
  match getN none o.reducible lvl with
  | none => none
  | some id =>
      let o1 := { o with reducible := setN none o.reducible lvl }
      let (r, g, b, c, o2) := absorbChildren o1 id (getNode o1 id).children 0
      let o3 := modifyNode o2 id (fun n =>
        { n with isLeaf := true, redTotal := r, greenTotal := g,
                 blueTotal := b, colorCount := c })
      some { o3 with leafCount := o3.leafCount + 1 }

/-- The loop of `Octree.Reduce`; each productive iteration clears one of the
8 `reducible` slots, so 9 iterations always suffice (fuel 9 is exact). -/
def reduceLoop : Nat → Octree → Octree
  | 0, o => o
  | fuel + 1, o =>
      if 256 < o.leafCount then
        match reduceStep o with
        | none => o
        | some o' => reduceLoop fuel o'
      else o

/-- `Octree.Reduce` of `part_000` (lines 127-159). -/
def reduce (o : Octree) : Octree := reduceLoop 9 o

/-- `Octree.InsertColor` of `part_000` (lines 70-121), for an RGBA color
already converted to bytes `r g b`.  The loop runs for
`level < colorDepth && level < maxDepth` with `maxDepth = 8`; afterwards the
terminal node is marked as a leaf and absorbs the color, and `Reduce` fires
when `leafCount` exceeds 256. -/
def insertColor (o : Octree) (r g b : Nat) : Except Unit Octree :=
  match insertLoop r g b (List.range (min o.colorDepth 8)) (o, 0) with
  | .error e => .error e
  | .ok (o1, cur) =>
      let o2 := modifyNode o1 cur (fun n =>
        { n with isLeaf := true, colorCount := n.colorCount + 1,
                 redTotal := n.redTotal + r, greenTotal := n.greenTotal + g,
                 blueTotal := n.blueTotal + b })
      .ok (if 256 < o2.leafCount then reduce o2 else o2)

/-- Insert a list of colors in order (the per-pixel loop of `BuildTree`). -/
def insertList (o : Octree) : List (Nat × Nat × Nat) → Except Unit Octree
  | [] => .ok o
  | (r, g, b) :: rest =>
      match insertColor o r g b with
      | .error e => .error e
      | .ok o' => insertList o' rest

/-- `Octree.buildPaletteRecursive` (lines 172-193); fuel bounds the recursion
depth (any bound at least the arena size is enough for reachable trees).
The `uint8` casts of the averages are embedded as `% 256`. -/
def buildPaletteRec : Nat → Octree → Option Nat → Octree
  | 0, o, _ => o
  | _, o, none => o
  | fuel + 1, o, some id =>
      let nd := getNode o id
      if nd.isLeaf then
        if 256 ≤ o.palette.length then o
        else
          let avg := ((nd.redTotal / nd.colorCount) % 256,
                      (nd.greenTotal / nd.colorCount) % 256,
                      (nd.blueTotal / nd.colorCount) % 256)
          { modifyNode o id (fun n => { n with paletteIndex := o.palette.length })
              with palette := o.palette ++ [avg] }
      else
        nd.children.foldl (fun acc c => buildPaletteRec fuel acc c) o

/-- `Octree.BuildPalette` (lines 163-166). -/
def buildPalette (o : Octree) : Octree :=
  buildPaletteRec (o.nodes.length + 1) { o with palette := [] } (some 0)

/-- The descent loop of `Octree.GetPaletteIndex` (lines 203-218): stop at the
first missing child.  For `level ≥ 8` the Go shift count `7-level` is
negative (run-time panic), embedded as `Except.error`; the loop runs for
`level < colorDepth` with no `maxDepth` bound. -/
def lookupLoop (o : Octree) (r g b : Nat) : List Nat → Nat → Except Unit Nat
  | [], cur => .ok cur
  | level :: rest, cur =>
      if 7 < level then .error () else
      let idx := (if r &&& (1 <<< (7 - level)) ≠ 0 then 4 else 0) |||
                 (if g &&& (1 <<< (7 - level)) ≠ 0 then 2 else 0) |||
                 (if b &&& (1 <<< (7 - level)) ≠ 0 then 1 else 0)
      match getN none (getNode o cur).children idx with
      | none => .ok cur
      | some cid => lookupLoop o r g b rest cid

/-- `Octree.GetPaletteIndex` of `part_000` (lines 198-225): after the walk,
return the node's palette index if it is a leaf and 0 otherwise. -/
def getPaletteIndex (o : Octree) (r g b : Nat) : Except Unit Nat :=
  match lookupLoop o r g b (List.range o.colorDepth) 0 with
  | .error e => .error e
  | .ok cur => .ok (if (getNode o cur).isLeaf then (getNode o cur).paletteIndex else 0)

/-- Sum of `colorCount` over the leaf nodes of the arena.  During insertion
every created node is linked into the trie and never detached, so this is
exactly the pixel total over the leaves of the trie. -/
def leafSum : List ONode → Nat
  | [] => 0
  | n :: t => (if n.isLeaf then n.colorCount else 0) + leafSum t

/-- Number of leaf nodes in the arena. -/
def leafNodeCount (l : List ONode) : Nat :=
  (l.filter (fun n => n.isLeaf)).length

/-- Sum of `colorCount` over the leaves of the trie reachable from `id`,
following child links (fuel-bounded walk). -/
def treeLeafSum : Nat → Octree → Nat → Nat
  | 0, _, _ => 0
  | fuel + 1, o, id =>
      let nd := getNode o id
      if nd.isLeaf then nd.colorCount
      else nd.children.foldl
        (fun acc c => match c with
          | none => acc
          | some cid => acc + treeLeafSum fuel o cid) 0

/-- Run a predicate under a successful result; errors (Go panics abort the
program before any observation) satisfy it vacuously. -/
def resultOK (r : Except Unit Octree) (P : Octree → Prop) : Prop :=
  match r with
  | .error _ => True
  | .ok o => P o

/-- Observe a successful result through `f`; a distinguishable default is
returned for the error case. -/
def okMap (f : Octree → α) (d : α) : Except Unit Octree → α
  | .error _ => d
  | .ok o => f o

/-- Per-node invariant of reachable `part_000` trees: a non-leaf holds no
pixels, a leaf holds at least one, and all child identifiers are inside the
arena. -/
def nodeOK (len : Nat) (nd : ONode) : Prop :=
  (nd.isLeaf = false → nd.colorCount = 0) ∧
  (nd.isLeaf = true → 0 < nd.colorCount) ∧
  (∀ c ∈ nd.children, ∀ i : Nat, c = some i → i < len)

/-- Tree invariant after `n` successful insertions: `leafCount` is still 0
(the increment needs a level-7 child creation, which is unreachable without
a panic), the pixel total over the leaves is `n`, and every node is
well-formed. -/
def InvO (o : Octree) (n : Nat) : Prop :=
  0 < o.nodes.length ∧ o.leafCount = 0 ∧ leafSum o.nodes = n ∧
  ∀ nd ∈ o.nodes, nodeOK o.nodes.length nd

/-- An `Octree` state over the 256 ceiling with every `reducible` entry nil:
the situation of claim C4 (`Reduce` invoked with all registries empty while
over budget). -/
def allEmptyState : Octree :=
  { nodes := [newONode], colorDepth := 4, leafCount := 257,
    reducible := List.replicate 8 none, palette := [] }

/-- An `Octree` whose single reducible node (id 1, depth 2) has one child
(id 2, empty statistics) and one grandchild (id 3, a leaf holding 5 pixels):
the statistics of the detached subtree live two levels down. -/
def deepStatsState : Octree :=
  { nodes :=
      [{ newONode with children := some 1 :: List.replicate 7 none },
       { newONode with children := some 2 :: List.replicate 7 none },
       { newONode with children := some 3 :: List.replicate 7 none },
       { newONode with isLeaf := true, colorCount := 5, redTotal := 10,
                       greenTotal := 10, blueTotal := 10 }],
    colorDepth := 4, leafCount := 257,
    reducible := [none, none, some 1, none, none, none, none, none],
    palette := [] }

end Octo

namespace Quant

/-- Embedding of `Color` from `src/main.go` / `src/unnamed/part_001`
(integer channels). -/
structure GColor where
  red : Nat
  green : Nat
  blue : Nat
  alpha : Nat
deriving DecidableEq, Repr

/-- Embedding of `OctreeNode` from `main.go` / `part_001`: the `Color`
accumulator is flattened into four channel totals, children are arena
identifiers. -/
structure QNode where
  red : Nat
  green : Nat
  blue : Nat
  alpha : Nat
  pixelCount : Nat
  paletteIndex : Nat
  children : List (Option Nat)
deriving DecidableEq, Repr

/-- The fresh node built by `NewOctreeNode` (registration in `Levels` is done
at the creation sites below, as in the source). -/
def newQNode : QNode :=
  { red := 0, green := 0, blue := 0, alpha := 0, pixelCount := 0,
    paletteIndex := 0, children := List.replicate 8 none }

/-- Embedding of `OctreeQuantizer` of `part_001` (which generalizes
`main.go`: there `maxDepth = 8` is the constant `MaxDepth` and `maxColors`
is the `colorCount` argument of `MakePalette`).  `levels` is the
`Levels map[int][]*OctreeNode`: `none` is an absent key, `some []` a key
holding a nil slice. -/
structure Quantizer where
  nodes : List QNode
  levels : Nat → Option (List Nat)
  maxDepth : Nat
  maxColors : Int

/-- `node.IsLeaf()`: `PixelCount > 0`. -/
def isLeaf (nd : QNode) : Bool := decide (0 < nd.pixelCount)

/-- Read a node of the arena. -/
def getNode (q : Quantizer) (id : Nat) : QNode :=
  getN newQNode q.nodes id

/-- Point update of one node of the arena. -/
def modifyNode (q : Quantizer) (id : Nat) (f : QNode → QNode) : Quantizer :=
  { q with nodes := setN (f (getNode q id)) q.nodes id }

/-- `OctreeQuantizer.AddLevelNode`: append to the slice at key `level`
(a missing key appends to nil). -/
def addLevelNode (q : Quantizer) (level : Nat) (id : Nat) : Quantizer :=
  { q with levels := fun l =>
      if l = level then some (((q.levels level).getD []) ++ [id]) else q.levels l }

/-- `OctreeNode.GetColorIndexForLevel`: pack bit `7-level` of each channel
into an octal digit (`mask = 0x80 >> level`). -/
def getColorIndexForLevel (c : GColor) (level : Nat) : Nat :=
  let mask := 128 >>> level
  (if c.red &&& mask ≠ 0 then 4 else 0) |||
  (if c.green &&& mask ≠ 0 then 2 else 0) |||
  (if c.blue &&& mask ≠ 0 then 1 else 0)

/-- `OctreeNode.AddColor` (recursion on the remaining depth; the fuel
`maxDepth - level + 1` given by `addColor` is exact).  At `level ≥ maxDepth`
the node absorbs the color; otherwise the child at the branch index is
created if needed — `NewOctreeNode(level, parent)` registers it at key
`level` when `level < maxDepth - 1` — and the walk descends. -/
def addColorAux (c : GColor) : Nat → Quantizer → Nat → Nat → Quantizer
  | 0, q, _, _ => q
  | fuel + 1, q, id, level =>
      if q.maxDepth ≤ level then
        modifyNode q id (fun n =>
          { n with red := n.red + c.red, green := n.green + c.green,
                   blue := n.blue + c.blue, alpha := n.alpha + c.alpha,
                   pixelCount := n.pixelCount + 1 })
      else
        let idx := getColorIndexForLevel c level
        match getN none (getNode q id).children idx with
        | some cid => addColorAux c fuel q cid (level + 1)
        | none =>
            let newId := q.nodes.length
            let q1 := { q with nodes := q.nodes ++ [newQNode] }
            let q2 := if level < q1.maxDepth - 1 then addLevelNode q1 level newId else q1
            let q3 := modifyNode q2 id (fun n =>
              { n with children := setN (some newId) n.children idx })
            addColorAux c fuel q3 newId (level + 1)

/-- `OctreeQuantizer.AddColor`: start the walk at the root. -/
def addColor (q : Quantizer) (c : GColor) : Quantizer :=
  addColorAux c (q.maxDepth + 1) q 0 0

/-- `NewOctreeQuantizer(config)`: empty level map, then the root node is
created (and registered at level 0 when `0 < maxDepth - 1`). -/
def newOctreeQuantizer (maxDepth : Nat) (maxColors : Int) : Quantizer :=
  let q : Quantizer :=
    { nodes := [newQNode], levels := fun _ => none,
      maxDepth := maxDepth, maxColors := maxColors }
  if 0 < maxDepth - 1 then addLevelNode q 0 0 else q

/-- `OctreeNode.GetLeafNodes`: collect, in child-index order, the shallowest
descendants with `PixelCount > 0` (fuel-bounded walk). -/
def getLeafNodesAux : Nat → Quantizer → Nat → List Nat
  | 0, _, _ => []
  | fuel + 1, q, id =>
      (getNode q id).children.foldl
        (fun acc c => match c with
          | none => acc
          | some cid =>
              if isLeaf (getNode q cid) then acc ++ [cid]
              else acc ++ getLeafNodesAux fuel q cid) []

/-- `OctreeQuantizer.GetLeaves`: leaf walk from the root.  The fuel
`nodes.length + 1` covers any acyclic arena (a path visits distinct
nodes). -/
def getLeaves (q : Quantizer) : List Nat :=
  getLeafNodesAux (q.nodes.length + 1) q 0

/-- The child loop of `OctreeNode.RemoveLeaves`: add each existing child's
channel totals and pixel count into node `id` and count the children (the
children array itself is not modified and nothing is detached). -/
def removeLeavesLoop (id : Nat) : List (Option Nat) → Quantizer → Int → Quantizer × Int
  | [], q, n => (q, n)
  | none :: rest, q, n => removeLeavesLoop id rest q n
  | some cid :: rest, q, n =>
      let ch := getNode q cid
      let q' := modifyNode q id (fun nd =>
        { nd with red := nd.red + ch.red, green := nd.green + ch.green,
                  blue := nd.blue + ch.blue, alpha := nd.alpha + ch.alpha,
                  pixelCount := nd.pixelCount + ch.pixelCount })
      removeLeavesLoop id rest q' (n + 1)

/-- `OctreeNode.RemoveLeaves`: returns the updated state and
`result - 1` where `result` is the number of existing children. -/
def removeLeaves (q : Quantizer) (id : Nat) : Quantizer × Int :=
  let (q', n) := removeLeavesLoop id (getNode q id).children q 0
  (q', n - 1)

/-- The inner node loop of `MakePalette`: reduce nodes of one level in
order, breaking as soon as `leafCount <= colorCount`. -/
def mpReduceNodes (q : Quantizer) (lc : Int) : List Nat → Quantizer × Int
  | [] => (q, lc)
  | id :: rest =>
      let (q', d) := removeLeaves q id
      let lc' := lc - d
      if lc' ≤ q'.maxColors then (q', lc')
      else mpReduceNodes q' lc' rest

/-- The outer level loop of `MakePalette`, over levels
`maxDepth-1, …, 0`: a level with an absent key is skipped; otherwise its
nodes are reduced, the loop breaks when `leafCount <= colorCount`, and a
fully processed level's slice is set to nil. -/
def mpLevels (q : Quantizer) (lc : Int) : List Nat → Quantizer
  | [] => q
  | lvl :: rest =>
      match q.levels lvl with
      | none => mpLevels q lc rest
      | some ids =>
          let (q', lc') := mpReduceNodes q lc ids
          if lc' ≤ q'.maxColors then q'
          else
            mpLevels
              { q' with levels := fun l => if l = lvl then some [] else q'.levels l }
              lc' rest

/-- `OctreeNode.GetColor`: truncated per-channel average, the zero color for
an empty node. -/
def getColor (nd : QNode) : GColor :=
  if nd.pixelCount = 0 then ⟨0, 0, 0, 0⟩
  else ⟨nd.red / nd.pixelCount, nd.green / nd.pixelCount,
        nd.blue / nd.pixelCount, nd.alpha / nd.pixelCount⟩

/-- The palette-emission loop of `MakePalette`: walk the leaf list, stop at
the color budget, append each leaf's average color and stamp the node with
the running palette index. -/
def paletteAssign (q : Quantizer) :
    List Nat → List GColor → Nat → Quantizer × List GColor
  | [], pal, _ => (q, pal)
  | id :: rest, pal, pIdx =>
      if q.maxColors ≤ (pIdx : Int) then (q, pal)
      else
        let nd := getNode q id
        if isLeaf nd then
          paletteAssign (modifyNode q id (fun n => { n with paletteIndex := pIdx }))
            rest (pal ++ [getColor nd]) (pIdx + 1)
        else paletteAssign q rest pal pIdx

/-- `OctreeQuantizer.MakePalette` (`part_001` lines 205-234; in `main.go`
the budget is the `colorCount` argument instead of the config field):
count the leaves, run the level-reduction sweep, then emit the palette. -/
def makePalette (q : Quantizer) : Quantizer × List GColor :=
  let lc : Int := (getLeaves q).length
  let q1 := mpLevels q lc (List.range q.maxDepth).reverse
  paletteAssign q1 (getLeaves q1) [] 0

/-- First non-nil entry of a children array, in index order (the embedding
of the `for _, child := range node.Children` fallback loop of
`OctreeNode.GetPaletteIndex`). -/
def firstSome : List (Option Nat) → Option Nat
  | [] => none
  | some x :: _ => some x
  | none :: rest => firstSome rest

/-- `OctreeNode.GetPaletteIndex` (`main.go` lines 90-104): a leaf returns
its stamped index; otherwise descend through the child at the branch index,
or through the first existing child when that one is missing; 0 when the
node has no children at all.  Fuel-bounded recursion (the walk of any
acyclic arena visits distinct nodes, so `nodes.length + 1` is enough). -/
def lookupAux (q : Quantizer) (c : GColor) : Nat → Nat → Nat → Nat
  | 0, _, _ => 0
  | fuel + 1, id, level =>
      let nd := getNode q id
      if isLeaf nd then nd.paletteIndex
      else
        let idx := getColorIndexForLevel c level
        match getN none nd.children idx with
        | some cid => lookupAux q c fuel cid (level + 1)
        | none =>
            match firstSome nd.children with
            | some cid => lookupAux q c fuel cid (level + 1)
            | none => 0

/-- `OctreeQuantizer.GetPaletteIndex`: walk from the root at level 0. -/
def getPaletteIndex (q : Quantizer) (c : GColor) : Nat :=
  lookupAux q c (q.nodes.length + 1) 0 0

/-- The lookup policy in the words of spec section 4.4, for the refinement
claim C7: walk by branch index; at a node that is not a leaf and has no
child at the required index, take the first existing child in index order
(rendered here as the head of the filtered children) and continue
descending, repeating as needed; return 0 if no child exists at all. -/
def lookupSpecAux (q : Quantizer) (c : GColor) : Nat → Nat → Nat → Nat
  | 0, _, _ => 0
  | fuel + 1, id, level =>
      let nd := getNode q id
      if isLeaf nd then nd.paletteIndex
      else
        match getN none nd.children (getColorIndexForLevel c level) with
        | some cid => lookupSpecAux q c fuel cid (level + 1)
        | none =>
            match (nd.children.filterMap (fun x => x)).head? with
            | some cid => lookupSpecAux q c fuel cid (level + 1)
            | none => 0

/-- `CustomConfig(maxDepth, maxColors)` (`part_001` lines 44-49) composed
with `NewOctreeQuantizer`: the configuration is stored unvalidated. -/
def customQuantizer (maxDepth : Nat) (maxColors : Int) : Quantizer :=
  newOctreeQuantizer maxDepth maxColors

/-- The depth validation of `part_001`'s `main` (lines 557-564): a parsed
depth argument is kept only when it lies in `[1, 8]`, otherwise the default
8 is used. -/
def cliDepth (d : Int) : Int :=
  if 1 ≤ d ∧ d ≤ 8 then d else 8

/-- The max-colors validation of `part_001`'s `main` (lines 566-581): an
explicit argument is kept only in `[2, 256]` (default 256); with no
argument, `1 << depth` is suggested and used when at most 256. -/
def cliMaxColors (c : Option Int) (depth : Int) : Int :=
  match c with
  | some c0 => if 2 ≤ c0 ∧ c0 ≤ 256 then c0 else 256
  | none => if (2 : Int) ^ depth.toNat ≤ 256 then (2 : Int) ^ depth.toNat else 256

/-- The C8 scenario driver: 100 black and 100 white opaque pixels inserted
into a quantizer configured with depth 8 and budget 256. -/
def scenarioC8 : Quantizer :=
  (List.replicate 100 (⟨0, 0, 0, 255⟩ : GColor) ++
   List.replicate 100 (⟨255, 255, 255, 255⟩ : GColor)).foldl addColor
    (customQuantizer 8 256)

/-- A quantizer holding a single inserted color (witness state for the
amended C1). -/
def oneColorQuantizer : Quantizer :=
  addColor (customQuantizer 8 256) ⟨10, 20, 30, 255⟩

end Quant

theorem length_setN (v : α) (l : List α) (i : Nat) :
    (setN v l i).length = l.length := by
  induction l generalizing i with
  | nil => rfl
  | cons a l ih =>
    cases i with
    | zero => rfl
    | succ n => simpa [setN] using ih n

theorem getN_setN_same (d v : α) (l : List α) (i : Nat) (h : i < l.length) :
    getN d (setN v l i) i = v := by
  induction l generalizing i with
  | nil => simp at h
  | cons a l ih =>
    cases i with
    | zero => rfl
    | succ n =>
      simp only [List.length_cons, Nat.succ_lt_succ_iff] at h
      simpa [setN, getN] using ih n h

theorem getN_setN_ne (d v : α) (l : List α) (i j : Nat) (h : i ≠ j) :
    getN d (setN v l i) j = getN d l j := by
  induction l generalizing i j with
  | nil => rfl
  | cons a l ih =>
    cases i with
    | zero =>
      cases j with
      | zero => exact absurd rfl h
      | succ m => rfl
    | succ n =>
      cases j with
      | zero => rfl
      | succ m => simpa [setN, getN] using ih n m (by omega)

theorem getN_mem_or_default (d : α) (l : List α) (i : Nat) :
    getN d l i = d ∨ getN d l i ∈ l := by
  induction l generalizing i with
  | nil => exact Or.inl rfl
  | cons a l ih =>
    cases i with
    | zero => exact Or.inr (List.mem_cons_self a l)
    | succ n =>
      rcases ih n with h | h
      · exact Or.inl h
      · exact Or.inr (List.mem_cons_of_mem a h)

theorem getN_mem_of_lt (d : α) (l : List α) (i : Nat) (h : i < l.length) :
    getN d l i ∈ l := by
  induction l generalizing i with
  | nil => simp at h
  | cons a l ih =>
    cases i with
    | zero => exact List.mem_cons_self a l
    | succ n =>
      simp only [List.length_cons, Nat.succ_lt_succ_iff] at h
      exact List.mem_cons_of_mem a (ih n h)

theorem mem_setN (v : α) (l : List α) (i : Nat) (x : α) (hx : x ∈ setN v l i) :
    x = v ∨ x ∈ l := by
  induction l generalizing i with
  | nil => simp [setN] at hx
  | cons a l ih =>
    cases i with
    | zero =>
      rcases List.mem_cons.1 hx with h | h
      · exact Or.inl h
      · exact Or.inr (List.mem_cons_of_mem a h)
    | succ n =>
      rcases List.mem_cons.1 hx with h | h
      · exact Or.inr (h ▸ List.mem_cons_self a l)
      · rcases ih n h with h' | h'
        · exact Or.inl h'
        · exact Or.inr (List.mem_cons_of_mem a h')

theorem firstSome_eq_head_filterMap (l : List (Option Nat)) :
    Quant.firstSome l = (l.filterMap (fun x => x)).head? := by
  induction l with
  | nil => rfl
  | cons a rest ih =>
    cases a with
    | none => simpa [Quant.firstSome] using ih
    | some x => rfl

/-- C4: in `Octree.Reduce`, when every per-level registry entry is nil while
`leafCount` exceeds the 256 ceiling, the code takes the silent `return`
(line 138 of `part_000`) and hands back the state unchanged — no fatal
internal error is raised or propagated, contrary to the claim. -/
theorem C4_reduce_silent_return :
    Octo.reduce Octo.allEmptyState = Octo.allEmptyState ∧
    256 < Octo.allEmptyState.leafCount := by
  constructor
  · rfl
  · decide

/-- C5: `NewOctree(4)` followed by one insertion produces a trie with
exactly one leaf node while the `leafCount` field stays 0: the increment is
guarded by `level == maxDepth-1` with the constant `maxDepth = 8`, which the
`level < colorDepth` loop never reaches when `colorDepth < 8`. -/
theorem C5_leafCount_miscount :
    Octo.okMap (fun o => (o.leafCount, Octo.leafNodeCount o.nodes)) (7, 7)
      (Octo.insertList (Octo.newOctree 4) [(0, 0, 0)]) = (0, 1) := by
  decide

/-- C6: after inserting (0,0,0) and then (255,255,255) into `NewOctree(3)`,
the root has two internal depth-1 children (nodes 1 and 4), but the
registry slot for depth 1 holds only node 4, the most recently created one:
`o.reducible[level+1] = currentNode.children[index]` overwrites instead of
appending. -/
theorem C6_registry_overwrite :
    Octo.okMap (fun o => (o.reducible, (Octo.getNode o 0).children)) ([], [])
      (Octo.insertList (Octo.newOctree 3) [(0, 0, 0), (255, 255, 255)]) =
    ([none, some 4, some 5, some 6, none, none, none, none],
     [some 1, none, none, none, none, none, none, some 4]) := by
  decide

/-- C10 (counterexample): `Octree.Reduce` on a tree whose reducible node
has a child with empty statistics and a grandchild leaf holding 5 pixels
detaches the whole subtree but absorbs only the immediate child's stored
counts: the pixel total over the leaves of the trie drops from 5 to 0, and
the merged node becomes a leaf with `colorCount = 0`. -/
theorem C10_reduce_loses_subtree_stats :
    Octo.treeLeafSum 9 Octo.deepStatsState 0 = 5 ∧
    Octo.treeLeafSum 9 (Octo.reduce Octo.deepStatsState) 0 = 0 ∧
    (Octo.getNode (Octo.reduce Octo.deepStatsState) 1).isLeaf = true ∧
    (Octo.getNode (Octo.reduce Octo.deepStatsState) 1).colorCount = 0 := by
  decide

/-- C9 (counterexample): tree construction performs no validation at all: a
configuration with `maxDepth = 99` (far beyond the 8-bit channel width) and
`maxColors = -5` (a non-positive budget) is stored verbatim and the returned
quantizer is usable — one insertion happily builds a 99-level chain of 99
new nodes. -/
theorem C9_construction_accepts_invalid :
    (Quant.customQuantizer 99 (-5)).maxDepth = 99 ∧
    (Quant.customQuantizer 99 (-5)).maxColors = -5 ∧
    (Quant.addColor (Quant.customQuantizer 99 (-5)) ⟨0, 0, 0, 0⟩).nodes.length = 100 := by
  refine ⟨rfl, rfl, ?_⟩
  decide

/-- C9 (amended): range enforcement lives only in the CLI argument layer of
`part_001`'s `main`, not in construction: whatever integers are supplied,
the depth it selects lies in [1, 8] (default 8) and the color budget it
selects lies in [2, 256] (default 256, or `1 << depth` when only a depth is
given); constructors themselves accept anything. -/
theorem C9_cli_validation (d : Int) (c : Option Int) :
    (1 ≤ Quant.cliDepth d ∧ Quant.cliDepth d ≤ 8) ∧
    (2 ≤ Quant.cliMaxColors c (Quant.cliDepth d) ∧
     Quant.cliMaxColors c (Quant.cliDepth d) ≤ 256) := by
  have hd : 1 ≤ Quant.cliDepth d ∧ Quant.cliDepth d ≤ 8 := by
    unfold Quant.cliDepth
    split
    · rename_i h
      exact h
    · omega
  refine ⟨hd, ?_⟩
  cases c with
  | some c0 =>
    simp only [Quant.cliMaxColors]
    split
    · rename_i h
      exact h
    · omega
  | none =>
    simp only [Quant.cliMaxColors]
    have h1 : 1 ≤ (Quant.cliDepth d).toNat := by omega
    have h8 : (Quant.cliDepth d).toNat ≤ 8 := by omega
    have hlo : (2 : Nat) ≤ 2 ^ (Quant.cliDepth d).toNat := by
      calc (2 : Nat) = 2 ^ 1 := rfl
        _ ≤ 2 ^ (Quant.cliDepth d).toNat := Nat.pow_le_pow_right (by omega) h1
    have hhi : (2 : Nat) ^ (Quant.cliDepth d).toNat ≤ 256 := by
      calc (2 : Nat) ^ (Quant.cliDepth d).toNat ≤ 2 ^ 8 :=
            Nat.pow_le_pow_right (by omega) h8
        _ = 256 := rfl
    have hloI : (2 : Int) ≤ 2 ^ (Quant.cliDepth d).toNat := by exact_mod_cast hlo
    have hhiI : (2 : Int) ^ (Quant.cliDepth d).toNat ≤ 256 := by exact_mod_cast hhi
    split
    · exact ⟨hloI, by omega⟩
    · omega

/-- C8: the two-color scenario.  After 100 insertions of (0,0,0,255) and
100 of (255,255,255,255) with depth 8 and budget 256, `MakePalette` yields
exactly the two entries (0,0,0) and (255,255,255); looking up (1,1,1)
follows the all-zero-bit trie path to the black entry (index 0), and
(254,254,254) follows the all-one-bit path (falling back to the first
existing child at the last level) to the white entry (index 1). -/
theorem C8_two_color_scenario :
    (Quant.makePalette Quant.scenarioC8).2 =
      [⟨0, 0, 0, 255⟩, ⟨255, 255, 255, 255⟩] ∧
    Quant.getPaletteIndex (Quant.makePalette Quant.scenarioC8).1 ⟨1, 1, 1, 255⟩ = 0 ∧
    Quant.getPaletteIndex (Quant.makePalette Quant.scenarioC8).1 ⟨254, 254, 254, 255⟩ = 1 := by
  refine ⟨?_, ?_, ?_⟩ <;> decide

/-- C7: first half — the quantizer-variant `GetPaletteIndex` of
`main.go`/`part_001` implements exactly the deterministic fallback policy of
spec section 4.4 (`lookupSpecAux`, written from the spec's words), for every
state, color, fuel, start node and level.  Second half — the `part_000`
variant does not: on the tree built from (0,0,0) and (255,255,255) at depth
2, looking up (128,128,128) stops at the non-leaf node 3 and returns 0, even
though node 3's first (and only) existing child, node 4, is a leaf with
palette index 1. -/
theorem C7_lookup_fallback_policy :
    (∀ (q : Quant.Quantizer) (c : Quant.GColor) (fuel id level : Nat),
        Quant.lookupAux q c fuel id level = Quant.lookupSpecAux q c fuel id level) ∧
    Octo.okMap (fun o =>
        let o' := Octo.buildPalette o
        ((match Octo.getPaletteIndex o' 128 128 128 with
          | .ok n => some n
          | .error _ => none),
         Quant.firstSome (Octo.getNode o' 3).children,
         (Octo.getNode o' 4).isLeaf, (Octo.getNode o' 4).paletteIndex))
      (none, none, false, 999)
      (Octo.insertList (Octo.newOctree 2) [(0, 0, 0), (255, 255, 255)]) =
    (some 0, some 4, true, 1) := by
  constructor
  · intro q c fuel
    induction fuel with
    | zero => intro id level; rfl
    | succ n ih =>
      intro id level
      simp only [Quant.lookupAux, Quant.lookupSpecAux]
      split
      · rfl
      · rw [← firstSome_eq_head_filterMap]
        cases getN none (Quant.getNode q id).children
            (Quant.getColorIndexForLevel c level) with
        | some cid => exact ih cid (level + 1)
        | none =>
          cases Quant.firstSome (Quant.getNode q id).children with
          | some cid => exact ih cid (level + 1)
          | none => rfl
  · decide

theorem maxColors_removeLeavesLoop (id : Nat) (slots : List (Option Nat))
    (q : Quant.Quantizer) (n : Int) :
    (Quant.removeLeavesLoop id slots q n).1.maxColors = q.maxColors := by
  induction slots generalizing q n with
  | nil => rfl
  | cons s rest ih =>
    cases s with
    | none => simpa [Quant.removeLeavesLoop] using ih q n
    | some cid => simpa [Quant.removeLeavesLoop] using ih _ (n + 1)

theorem maxColors_mpReduceNodes (q : Quant.Quantizer) (lc : Int) (ids : List Nat) :
    (Quant.mpReduceNodes q lc ids).1.maxColors = q.maxColors := by
  induction ids generalizing q lc with
  | nil => rfl
  | cons id rest ih =>
    simp only [Quant.mpReduceNodes, Quant.removeLeaves]
    split
    · simpa [Quant.removeLeaves] using maxColors_removeLeavesLoop id _ q 0
    · rw [ih]
      exact maxColors_removeLeavesLoop id _ q 0

theorem maxColors_mpLevels (q : Quant.Quantizer) (lc : Int) (lvls : List Nat) :
    (Quant.mpLevels q lc lvls).maxColors = q.maxColors := by
  induction lvls generalizing q lc with
  | nil => rfl
  | cons lvl rest ih =>
    simp only [Quant.mpLevels]
    cases q.levels lvl with
    | none => exact ih q lc
    | some ids =>
      simp only
      split
      · exact maxColors_mpReduceNodes q lc ids
      · rw [ih]
        exact maxColors_mpReduceNodes q lc ids

theorem paletteAssign_length (ids : List Nat) (q : Quant.Quantizer)
    (pal : List Quant.GColor) (pIdx : Nat) (hlen : pal.length = pIdx) :
    ((Quant.paletteAssign q ids pal pIdx).2).length ≤ max pIdx q.maxColors.toNat := by
  induction ids generalizing q pal pIdx with
  | nil => simp [Quant.paletteAssign, hlen]
  | cons id rest ih =>
    simp only [Quant.paletteAssign]
    split
    · simp [hlen]
    · rename_i hlt
      split
      · have h2 := ih (Quant.modifyNode q id fun n => { n with paletteIndex := pIdx })
          (pal ++ [Quant.getColor (Quant.getNode q id)]) (pIdx + 1)
          (by simp [hlen])
        have hmc : (Quant.modifyNode q id fun n =>
            { n with paletteIndex := pIdx }).maxColors = q.maxColors := rfl
        rw [hmc] at h2
        omega
      · exact ih q pal pIdx hlen

/-- C2: for every quantizer state (in particular after any sequence of
insertions), the palette produced by `MakePalette` has at most
`maxColors` entries: the emission loop stops as soon as the running palette
index reaches the budget.  (`Int.toNat` reflects that a non-positive budget
yields an empty palette.) -/
theorem C2_palette_within_budget (q : Quant.Quantizer) :
    ((Quant.makePalette q).2).length ≤ q.maxColors.toNat := by
  have h := paletteAssign_length
    (Quant.getLeaves (Quant.mpLevels q ((Quant.getLeaves q).length : Int)
      (List.range q.maxDepth).reverse))
    (Quant.mpLevels q ((Quant.getLeaves q).length : Int)
      (List.range q.maxDepth).reverse) [] 0 rfl
  rw [maxColors_mpLevels] at h
  simpa [Quant.makePalette] using h

theorem piZero_modifyNode (q : Quant.Quantizer) (id : Nat) (f : Quant.QNode → Quant.QNode)
    (hf : ∀ nd, (f nd).paletteIndex = nd.paletteIndex)
    (h : ∀ nd ∈ q.nodes, nd.paletteIndex = 0) :
    ∀ nd ∈ (Quant.modifyNode q id f).nodes, nd.paletteIndex = 0 := by
  intro nd hnd
  rcases mem_setN _ _ _ _ hnd with rfl | hmem
  · rw [hf]
    rcases getN_mem_or_default Quant.newQNode q.nodes id with hdef | hmem'
    · rw [Quant.getNode, hdef]; rfl
    · exact h _ hmem'
  · exact h _ hmem

theorem piZero_removeLeavesLoop (id : Nat) (slots : List (Option Nat))
    (q : Quant.Quantizer) (n : Int)
    (h : ∀ nd ∈ q.nodes, nd.paletteIndex = 0) :
    ∀ nd ∈ (Quant.removeLeavesLoop id slots q n).1.nodes, nd.paletteIndex = 0 := by
  induction slots generalizing q n with
  | nil => exact h
  | cons s rest ih =>
    cases s with
    | none => exact ih q n h
    | some cid =>
      exact ih _ (n + 1) (piZero_modifyNode q id _ (fun nd => rfl) h)

theorem piZero_mpReduceNodes (q : Quant.Quantizer) (lc : Int) (ids : List Nat)
    (h : ∀ nd ∈ q.nodes, nd.paletteIndex = 0) :
    ∀ nd ∈ (Quant.mpReduceNodes q lc ids).1.nodes, nd.paletteIndex = 0 := by
  induction ids generalizing q lc with
  | nil => exact h
  | cons id rest ih =>
    simp only [Quant.mpReduceNodes, Quant.removeLeaves]
    split
    · exact piZero_removeLeavesLoop id _ q 0 h
    · exact ih _ _ (piZero_removeLeavesLoop id _ q 0 h)

theorem piZero_mpLevels (q : Quant.Quantizer) (lc : Int) (lvls : List Nat)
    (h : ∀ nd ∈ q.nodes, nd.paletteIndex = 0) :
    ∀ nd ∈ (Quant.mpLevels q lc lvls).nodes, nd.paletteIndex = 0 := by
  induction lvls generalizing q lc with
  | nil => exact h
  | cons lvl rest ih =>
    simp only [Quant.mpLevels]
    cases q.levels lvl with
    | none => exact ih q lc h
    | some ids =>
      simp only
      split
      · exact piZero_mpReduceNodes q lc ids h
      · exact ih _ _ (piZero_mpReduceNodes q lc ids h)

theorem paletteAssign_pi_bound (ids : List Nat) (q : Quant.Quantizer)
    (pal : List Quant.GColor) (pIdx : Nat) (hlen : pal.length = pIdx)
    (h : ∀ nd ∈ q.nodes, nd.paletteIndex = 0 ∨ nd.paletteIndex < pal.length) :
    (∀ nd ∈ (Quant.paletteAssign q ids pal pIdx).1.nodes,
        nd.paletteIndex = 0 ∨
        nd.paletteIndex < ((Quant.paletteAssign q ids pal pIdx).2).length) ∧
    pal.length ≤ ((Quant.paletteAssign q ids pal pIdx).2).length := by
  induction ids generalizing q pal pIdx with
  | nil => exact ⟨h, Nat.le_refl _⟩
  | cons id rest ih =>
    simp only [Quant.paletteAssign]
    split
    · exact ⟨h, Nat.le_refl _⟩
    · split
      · have hrec := ih (Quant.modifyNode q id fun n => { n with paletteIndex := pIdx })
          (pal ++ [Quant.getColor (Quant.getNode q id)]) (pIdx + 1)
          (by simp [hlen])
          (by
            intro nd hnd
            rcases mem_setN _ _ _ _ hnd with rfl | hmem
            · right
              simp [hlen]
            · rcases h nd hmem with h0 | hlt
              · exact Or.inl h0
              · right
                simp only [List.length_append, List.length_cons, List.length_nil]
                omega)
        refine ⟨hrec.1, ?_⟩
        have := hrec.2
        simp only [List.length_append, List.length_cons, List.length_nil] at this
        omega
      · exact ih q pal pIdx hlen h

theorem lookupAux_result (q : Quant.Quantizer) (c : Quant.GColor) :
    ∀ (fuel id level : Nat),
      Quant.lookupAux q c fuel id level = 0 ∨
      ∃ nd ∈ q.nodes, Quant.lookupAux q c fuel id level = nd.paletteIndex := by
  intro fuel
  induction fuel with
  | zero => intro id level; exact Or.inl rfl
  | succ n ih =>
    intro id level
    simp only [Quant.lookupAux]
    split
    · rcases getN_mem_or_default Quant.newQNode q.nodes id with hdef | hmem
      · left
        rw [Quant.getNode, hdef]
        rfl
      · right
        exact ⟨_, hmem, rfl⟩
    · cases getN none (Quant.getNode q id).children
          (Quant.getColorIndexForLevel c level) with
      | some cid => exact ih cid (level + 1)
      | none =>
        cases Quant.firstSome (Quant.getNode q id).children with
        | some cid => exact ih cid (level + 1)
        | none => exact Or.inl rfl

/-- C1 (amended): whenever the palette built by `MakePalette` is non-empty
(which holds whenever at least one color was inserted and the budget is
positive), `GetPaletteIndex` returns an index in `[0, len(Palette))` for
every color.  The hypothesis that all stored palette indices are 0 holds in
every reachable pre-`MakePalette` state: nodes are created with index 0 and
insertion never touches the field. -/
theorem C1_lookup_in_range (q : Quant.Quantizer) (c : Quant.GColor)
    (hpi : ∀ nd ∈ q.nodes, nd.paletteIndex = 0)
    (hne : 1 ≤ ((Quant.makePalette q).2).length) :
    Quant.getPaletteIndex (Quant.makePalette q).1 c < ((Quant.makePalette q).2).length := by
  revert hne
  simp only [Quant.makePalette, Quant.getPaletteIndex]
  intro hne
  have hz := piZero_mpLevels q ((Quant.getLeaves q).length : Int)
    (List.range q.maxDepth).reverse hpi
  have hbound := paletteAssign_pi_bound
    (Quant.getLeaves (Quant.mpLevels q ((Quant.getLeaves q).length : Int)
      (List.range q.maxDepth).reverse))
    (Quant.mpLevels q ((Quant.getLeaves q).length : Int)
      (List.range q.maxDepth).reverse) [] 0 rfl
    (fun nd hnd => Or.inl (hz nd hnd))
  rcases lookupAux_result _ c _ 0 0 with h0 | ⟨nd, hnd, heq⟩
  · rw [h0]; omega
  · rw [heq]
    rcases hbound.1 nd hnd with h0 | hlt
    · rw [h0]; omega
    · exact hlt

/-- Witness for the amended C1 at a concrete input: a quantizer holding one
inserted color has an all-zero palette-index arena and builds a one-entry
palette, so the looked-up index of an arbitrary color lies inside it. -/
theorem C1_lookup_in_range_witness :
    (∀ nd ∈ Quant.oneColorQuantizer.nodes, nd.paletteIndex = 0) ∧
    1 ≤ ((Quant.makePalette Quant.oneColorQuantizer).2).length ∧
    Quant.getPaletteIndex (Quant.makePalette Quant.oneColorQuantizer).1 ⟨99, 99, 99, 0⟩ <
      ((Quant.makePalette Quant.oneColorQuantizer).2).length :=
  ⟨by decide, by decide,
   C1_lookup_in_range Quant.oneColorQuantizer ⟨99, 99, 99, 0⟩ (by decide) (by decide)⟩

/-- C1 (counterexample): with no insertion at all, `MakePalette` returns an
empty palette and `GetPaletteIndex` returns 0, which is not a member of the
half-open range `[0, len(Palette)) = [0, 0)`. -/
theorem C1_empty_palette_counterexample :
    (Quant.makePalette (Quant.customQuantizer 8 256)).2.length = 0 ∧
    Quant.getPaletteIndex (Quant.makePalette (Quant.customQuantizer 8 256)).1 ⟨3, 3, 3, 255⟩ = 0 ∧
    ¬ (Quant.getPaletteIndex (Quant.makePalette (Quant.customQuantizer 8 256)).1 ⟨3, 3, 3, 255⟩ <
        (Quant.makePalette (Quant.customQuantizer 8 256)).2.length) := by
  refine ⟨?_, ?_, ?_⟩ <;> decide

theorem getN_append_left (d : α) (l l2 : List α) (i : Nat) (h : i < l.length) :
    getN d (l ++ l2) i = getN d l i := by
  induction l generalizing i with
  | nil => simp at h
  | cons a t ih =>
    cases i with
    | zero => rfl
    | succ n =>
      simp only [List.length_cons, Nat.succ_lt_succ_iff] at h
      simpa [getN] using ih n h

theorem leafSum_setN (l : List Octo.ONode) (i : Nat) (v : Octo.ONode)
    (h : i < l.length) :
    Octo.leafSum (setN v l i) +
      (if (getN Octo.newONode l i).isLeaf then (getN Octo.newONode l i).colorCount else 0) =
    Octo.leafSum l + (if v.isLeaf then v.colorCount else 0) := by
  induction l generalizing i with
  | nil => simp at h
  | cons a t ih =>
    cases i with
    | zero =>
      simp only [setN, getN, Octo.leafSum]
      omega
    | succ n =>
      simp only [List.length_cons, Nat.succ_lt_succ_iff] at h
      have := ih n h
      simp only [setN, getN, Octo.leafSum]
      omega

theorem leafSum_append_single (l : List Octo.ONode) (nd : Octo.ONode) :
    Octo.leafSum (l ++ [nd]) =
      Octo.leafSum l + (if nd.isLeaf then nd.colorCount else 0) := by
  induction l with
  | nil => simp [Octo.leafSum]
  | cons a t ih =>
    simp only [List.cons_append, Octo.leafSum, List.append_eq]
    rw [ih]
    omega

theorem nodeOK_mono (len len' : Nat) (h : len ≤ len') (nd : Octo.ONode)
    (hok : Octo.nodeOK len nd) : Octo.nodeOK len' nd := by
  refine ⟨hok.1, hok.2.1, ?_⟩
  intro c hc i hci
  exact Nat.lt_of_lt_of_le (hok.2.2 c hc i hci) h

theorem nodeOK_newONode (len : Nat) : Octo.nodeOK len Octo.newONode := by
  refine ⟨fun _ => rfl, ?_, ?_⟩
  · intro h
    exact absurd h (by decide)
  · intro c hc i hci
    rw [List.eq_of_mem_replicate hc] at hci
    cases hci

theorem insertStep_inv (r g b n : Nat) (o : Octo.Octree) (cur level : Nat)
    (o' : Octo.Octree) (cur' : Nat)
    (h : Octo.insertStep r g b (o, cur) level = .ok (o', cur'))
    (hinv : Octo.InvO o n) (hcur : cur < o.nodes.length) :
    Octo.InvO o' n ∧ cur' < o'.nodes.length := by
  by_cases h5 : 5 < level
  · simp [Octo.insertStep, h5] at h
  · simp only [Octo.insertStep, if_neg h5] at h
    revert h
    cases hslot : getN none (Octo.getNode o cur).children
        (((r &&& 2 ^ (7 - level)) >>> (5 - level)) |||
         ((g &&& 2 ^ (7 - level)) >>> (6 - level)) |||
         ((b &&& 2 ^ (7 - level)) >>> (7 - level))) with
    | some cid =>
      intro h
      injection h with h
      injection h with ho hc
      subst ho; subst hc
      refine ⟨hinv, ?_⟩
      rcases getN_mem_or_default (none) (Octo.getNode o cur).children
          (((r &&& 2 ^ (7 - level)) >>> (5 - level)) |||
           ((g &&& 2 ^ (7 - level)) >>> (6 - level)) |||
           ((b &&& 2 ^ (7 - level)) >>> (7 - level))) with hdef | hmem
      · rw [hslot] at hdef; cases hdef
      · rw [hslot] at hmem
        have hnode : Octo.getNode o cur ∈ o.nodes := getN_mem_of_lt _ _ _ hcur
        exact (hinv.2.2.2 _ hnode).2.2 _ hmem _ rfl
    | none =>
      intro h
      have h7 : level < 7 := by omega
      have h77 : (level == 7) = false := by
        simp only [beq_eq_false_iff_ne]
        omega
      simp only [if_pos h7, h77, Bool.false_eq_true, if_false] at h
      injection h with h
      injection h with ho hc
      subst ho; subst hc
      -- the new arena: the appended fresh node, then the parent re-linked
      have hlen1 : (o.nodes ++ [Octo.newONode]).length = o.nodes.length + 1 := by
        simp
      have hcur1 : cur < (o.nodes ++ [Octo.newONode]).length := by omega
      have hget1 : getN Octo.newONode (o.nodes ++ [Octo.newONode]) cur =
          getN Octo.newONode o.nodes cur :=
        getN_append_left _ _ _ _ hcur
      constructor
      · refine ⟨?_, ?_, ?_, ?_⟩
        · simp only [Octo.modifyNode, Octo.getNode, length_setN]
          have h0 := hinv.1
          simp only [List.length_append, List.length_singleton]
          omega
        · exact hinv.2.1
        · -- leafSum is unchanged: only the children field of the parent changes
          simp only [Octo.modifyNode, Octo.getNode]
          have hs := leafSum_setN (o.nodes ++ [Octo.newONode]) cur
            ({ getN Octo.newONode (o.nodes ++ [Octo.newONode]) cur with
                children := setN (some o.nodes.length)
                  (getN Octo.newONode (o.nodes ++ [Octo.newONode]) cur).children
                  (((r &&& 2 ^ (7 - level)) >>> (5 - level)) |||
                   ((g &&& 2 ^ (7 - level)) >>> (6 - level)) |||
                   ((b &&& 2 ^ (7 - level)) >>> (7 - level))) }) hcur1
          have happ : Octo.leafSum (o.nodes ++ [Octo.newONode]) =
              Octo.leafSum o.nodes := by
            rw [leafSum_append_single]
            rfl
          rw [happ] at hs
          have hn := hinv.2.2.1
          simp only [hget1] at hs ⊢
          omega
        · -- every node of the new arena is well-formed
          intro nd hnd
          simp only [Octo.modifyNode, Octo.getNode, length_setN, hlen1] at hnd ⊢
          rcases mem_setN _ _ _ _ hnd with rfl | hmem
          · rw [hget1]
            have hnode : getN Octo.newONode o.nodes cur ∈ o.nodes :=
              getN_mem_of_lt _ _ _ hcur
            have hok := hinv.2.2.2 _ hnode
            refine ⟨hok.1, hok.2.1, ?_⟩
            intro c hc i hci
            rcases mem_setN _ _ _ _ hc with rfl | hcm
            · injection hci with hci
              omega
            · exact Nat.lt_of_lt_of_le (hok.2.2 c hcm i hci) (by omega)
          · rcases List.mem_append.1 hmem with hml | hmr
            · exact nodeOK_mono _ _ (by omega) _ (hinv.2.2.2 _ hml)
            · rw [List.mem_singleton.1 hmr]
              exact nodeOK_newONode _
      · simp [Octo.modifyNode, Octo.getNode, length_setN, hlen1]

theorem insertLoop_inv (r g b n : Nat) :
    ∀ (lvls : List Nat) (o : Octo.Octree) (cur : Nat) (o' : Octo.Octree) (cur' : Nat),
      Octo.insertLoop r g b lvls (o, cur) = .ok (o', cur') →
      Octo.InvO o n → cur < o.nodes.length →
      Octo.InvO o' n ∧ cur' < o'.nodes.length := by
  intro lvls
  induction lvls with
  | nil =>
    intro o cur o' cur' h hinv hcur
    injection h with h
    injection h with ho hc
    subst ho; subst hc
    exact ⟨hinv, hcur⟩
  | cons level rest ih =>
    intro o cur o' cur' h hinv hcur
    revert h
    simp only [Octo.insertLoop]
    cases hstep : Octo.insertStep r g b (o, cur) level with
    | error e => intro h; cases h
    | ok acc1 =>
      intro h
      obtain ⟨hinv1, hcur1⟩ :=
        insertStep_inv r g b n o cur level acc1.1 acc1.2 (by rw [hstep]) hinv hcur
      exact ih acc1.1 acc1.2 o' cur' h hinv1 hcur1

theorem insertColor_inv (o : Octo.Octree) (r g b n : Nat)
    (hinv : Octo.InvO o n) (o' : Octo.Octree)
    (h : Octo.insertColor o r g b = .ok o') : Octo.InvO o' (n + 1) := by
  revert h
  simp only [Octo.insertColor]
  cases hloop : Octo.insertLoop r g b (List.range (min o.colorDepth 8)) (o, 0) with
  | error e => intro h; cases h
  | ok acc =>
    intro h
    injection h with h
    obtain ⟨hinv1, hcur1⟩ :=
      insertLoop_inv r g b n _ o 0 acc.1 acc.2 (by rw [hloop]) hinv hinv.1
    -- the terminal node absorbs the color and is marked a leaf
    set o1 := acc.1 with ho1
    set cur := acc.2 with hcur
    have hnode : getN Octo.newONode o1.nodes cur ∈ o1.nodes :=
      getN_mem_of_lt _ _ _ hcur1
    have hok := hinv1.2.2.2 _ hnode
    have hs := leafSum_setN o1.nodes cur
      ({ getN Octo.newONode o1.nodes cur with
          isLeaf := true,
          colorCount := (getN Octo.newONode o1.nodes cur).colorCount + 1,
          redTotal := (getN Octo.newONode o1.nodes cur).redTotal + r,
          greenTotal := (getN Octo.newONode o1.nodes cur).greenTotal + g,
          blueTotal := (getN Octo.newONode o1.nodes cur).blueTotal + b }) hcur1
    have hinv2 : Octo.InvO (Octo.modifyNode o1 cur (fun nd =>
        { nd with isLeaf := true, colorCount := nd.colorCount + 1,
                  redTotal := nd.redTotal + r, greenTotal := nd.greenTotal + g,
                  blueTotal := nd.blueTotal + b })) (n + 1) := by
      refine ⟨?_, hinv1.2.1, ?_, ?_⟩
      · simpa [Octo.modifyNode, length_setN] using hinv1.1
      · simp only [Octo.modifyNode, Octo.getNode]
        have hn := hinv1.2.2.1
        rcases Bool.eq_false_or_eq_true (getN Octo.newONode o1.nodes cur).isLeaf with hb | hb
        · simp only [hb] at hs
          simp at hs
          omega
        · have hc0 := hok.1 hb
          simp only [hb] at hs
          simp at hs
          omega
      · intro nd hnd
        simp only [Octo.modifyNode, Octo.getNode, length_setN] at hnd ⊢
        rcases mem_setN _ _ _ _ hnd with rfl | hmem
        · refine ⟨?_, ?_, ?_⟩
          · intro hf
            simp at hf
          · intro _
            exact Nat.succ_pos _
          · intro c hc i hci
            exact hok.2.2 c hc i hci
        · exact hinv1.2.2.2 _ hmem
    rw [← h]
    have hlc : (Octo.modifyNode o1 cur (fun nd =>
        { nd with isLeaf := true, colorCount := nd.colorCount + 1,
                  redTotal := nd.redTotal + r, greenTotal := nd.greenTotal + g,
                  blueTotal := nd.blueTotal + b })).leafCount = 0 := hinv2.2.1
    rw [if_neg (by omega)]
    exact hinv2

theorem invO_newOctree (d : Nat) : Octo.InvO (Octo.newOctree d) 0 := by
  refine ⟨Nat.one_pos, rfl, rfl, ?_⟩
  intro nd hnd
  rw [List.mem_singleton.1 hnd]
  exact nodeOK_newONode _

theorem insertList_inv :
    ∀ (colors : List (Nat × Nat × Nat)) (o : Octo.Octree) (n : Nat),
      Octo.InvO o n →
      Octo.resultOK (Octo.insertList o colors)
        (fun o' => Octo.InvO o' (n + colors.length)) := by
  intro colors
  induction colors with
  | nil =>
    intro o n hinv
    simpa [Octo.insertList, Octo.resultOK] using hinv
  | cons c rest ih =>
    intro o n hinv
    obtain ⟨r, g, b⟩ := c
    simp only [Octo.insertList]
    cases hic : Octo.insertColor o r g b with
    | error e => exact trivial
    | ok o1 =>
      have h1 := insertColor_inv o r g b n hinv o1 hic
      have h2 := ih o1 (n + 1) h1
      have harith : n + 1 + rest.length = n + (rest.length + 1) := by omega
      rw [harith] at h2
      simpa using h2

/-- C3: for every configured color depth and every sequence of insertions
that runs without a Go run-time panic (including the automatic `Reduce`
calls inside `InsertColor`, which never fire because `leafCount` is never
incremented), every leaf node of the resulting tree has
`colorCount > 0`, so the per-channel division `sum / colorCount` of
`buildPaletteRecursive` never divides by zero. -/
theorem C3_leaf_counts_positive (d : Nat) (colors : List (Nat × Nat × Nat)) :
    Octo.resultOK (Octo.insertList (Octo.newOctree d) colors)
      (fun o => ∀ nd ∈ o.nodes, nd.isLeaf = true → 0 < nd.colorCount) := by
  have h := insertList_inv colors (Octo.newOctree d) 0 (invO_newOctree d)
  revert h
  cases Octo.insertList (Octo.newOctree d) colors with
  | error e => intro h; simp [Octo.resultOK]
  | ok o =>
    intro h
    simp only [Octo.resultOK] at h ⊢
    intro nd hnd hleaf
    exact (h.2.2.2 _ hnd).2.1 hleaf

/-- C10 (amended): for every color depth and every insertion sequence that
runs without a panic, the sum of `colorCount` over the leaf nodes equals the
number of colors inserted — reductions never fire during insertion
(`leafCount` stays 0), and every created node is linked into the trie, so
the arena total is the trie total. -/
theorem C10_insertion_conserves_pixels (d : Nat) (colors : List (Nat × Nat × Nat)) :
    Octo.resultOK (Octo.insertList (Octo.newOctree d) colors)
      (fun o => Octo.leafSum o.nodes = colors.length) := by
  have h := insertList_inv colors (Octo.newOctree d) 0 (invO_newOctree d)
  revert h
  cases Octo.insertList (Octo.newOctree d) colors with
  | error e => intro h; simp [Octo.resultOK]
  | ok o =>
    intro h
    simp only [Octo.resultOK] at h ⊢
    simpa using h.2.2.1
